import Mathlib

/-!
Verification of the SentryOS desktop shell: a shallow embedding of the
window-manager state machine (`src/components/desktop/WindowManager.tsx`),
the folder-view double-click classifier
(`src/components/desktop/apps/FolderView.tsx`), and the chat relay endpoint
(`POST /api/chat`), together with proofs of the specified properties.
-/

namespace SentryOS

/-! ## Window manager data model (types.ts / WindowManager.tsx) -/

/-- Embedding of the `WindowState` interface from `types.ts`.  The
`content` payload (`React.ReactNode`) is opaque to the window manager, so
it is modelled as an abstract tag. -/
structure WindowState where
  id : String
  title : String
  icon : String
  x : Int
  y : Int
  width : Int
  height : Int
  minWidth : Int
  minHeight : Int
  isMinimized : Bool
  isMaximized : Bool
  isFocused : Bool
  zIndex : Nat
  content : Nat
deriving DecidableEq, Repr

/-- The argument of `openWindow`: `Omit<WindowState, 'zIndex' | 'isFocused'>`. -/
structure WindowDesc where
  id : String
  title : String
  icon : String
  x : Int
  y : Int
  width : Int
  height : Int
  minWidth : Int
  minHeight : Int
  isMinimized : Bool
  isMaximized : Bool
  content : Nat
deriving DecidableEq, Repr

/-- The provider state: the `windows` list plus the `topZIndex` counter. -/
structure WMState where
  windows : List WindowState
  topZIndex : Nat
deriving DecidableEq, Repr

/-- Initial provider state: `useState<WindowState[]>([])`, `useState(100)`. -/
def initState : WMState := { windows := [], topZIndex := 100 }

/-- Builds the record appended by `openWindow` for a fresh id:
`{ ...window, zIndex: newZ, isFocused: true }`. -/
def mkWindow (d : WindowDesc) (z : Nat) : WindowState :=
  { id := d.id, title := d.title, icon := d.icon, x := d.x, y := d.y,
    width := d.width, height := d.height, minWidth := d.minWidth,
    minHeight := d.minHeight, isMinimized := d.isMinimized,
    isMaximized := d.isMaximized, isFocused := true, zIndex := z,
    content := d.content }

/-- Embedding of `openWindow` (WindowManager.tsx lines 45-91): compute
`newZ = topZIndex + 1`; if a record with the descriptor's id exists and is
minimized, un-minimize, focus and restack it while unfocusing the rest; if
it exists non-minimized, focus and restack it while unfocusing the rest;
otherwise unfocus everything and append a fresh focused record. -/
def openWindow (d : WindowDesc) (s : WMState) : WMState :=
  let newZ := s.topZIndex + 1
  let ws :=
    match s.windows.find? (fun w => w.id == d.id) with
    | some existing =>
      if existing.isMinimized then
        s.windows.map (fun w =>
          if w.id == d.id then
            { w with isMinimized := false, isFocused := true, zIndex := newZ }
          else
            { w with isFocused := false })
      else
        s.windows.map (fun w =>
          if w.id == d.id then
            { w with isFocused := true, zIndex := newZ }
          else
            { w with isFocused := false })
    | none =>
      s.windows.map (fun w => { w with isFocused := false })
        ++ [mkWindow d newZ]
  { windows := ws, topZIndex := newZ }

/-- Embedding of `closeWindow` (lines 93-107): `prev.filter(w => w.id !== id)`. -/
def closeWindow (id : String) (s : WMState) : WMState :=
  { s with windows := s.windows.filter (fun w => !(w.id == id)) }

/-- Embedding of `minimizeWindow` (lines 109-121). -/
def minimizeWindow (id : String) (s : WMState) : WMState :=
  { s with windows := s.windows.map (fun w =>
      if w.id == id then { w with isMinimized := true, isFocused := false } else w) }

/-- Embedding of `maximizeWindow` (lines 123-138): toggles `isMaximized`. -/
def maximizeWindow (id : String) (s : WMState) : WMState :=
  { s with windows := s.windows.map (fun w =>
      if w.id == id then { w with isMaximized := !w.isMaximized } else w) }

/-- Embedding of `restoreWindow` (lines 140-150). -/
def restoreWindow (id : String) (s : WMState) : WMState :=
  let newZ := s.topZIndex + 1
  { windows := s.windows.map (fun w =>
      if w.id == id then
        { w with isMinimized := false, isFocused := true, zIndex := newZ }
      else
        { w with isFocused := false }),
    topZIndex := newZ }

/-- Embedding of `focusWindow` (lines 152-162). -/
def focusWindow (id : String) (s : WMState) : WMState :=
  let newZ := s.topZIndex + 1
  { windows := s.windows.map (fun w =>
      if w.id == id then
        { w with isFocused := true, zIndex := newZ }
      else
        { w with isFocused := false }),
    topZIndex := newZ }

/-- Embedding of `updateWindowPosition` (lines 164-174). -/
def updateWindowPosition (id : String) (x y : Int) (s : WMState) : WMState :=
  { s with windows := s.windows.map (fun w =>
      if w.id == id then { w with x := x, y := y } else w) }

/-- Embedding of `updateWindowSize` (lines 176-189). -/
def updateWindowSize (id : String) (width height : Int) (s : WMState) : WMState :=
  { s with windows := s.windows.map (fun w =>
      if w.id == id then { w with width := width, height := height } else w) }

/-- One window-manager operation, as exposed by the provider context. -/
inductive Op where
  | opn (d : WindowDesc)
  | close (id : String)
  | minimize (id : String)
  | maximize (id : String)
  | restore (id : String)
  | focus (id : String)
  | move (id : String) (x y : Int)
  | resize (id : String) (width height : Int)
deriving DecidableEq, Repr

/-- Interpretation of one operation on the provider state. -/
def stepOp (s : WMState) : Op → WMState
  | .opn d => openWindow d s
  | .close id => closeWindow id s
  | .minimize id => minimizeWindow id s
  | .maximize id => maximizeWindow id s
  | .restore id => restoreWindow id s
  | .focus id => focusWindow id s
  | .move id x y => updateWindowPosition id x y s
  | .resize id w h => updateWindowSize id w h s

/-- State after a sequence of operations from the initial state. -/
def applyOps (ops : List Op) : WMState :=
  ops.foldl stepOp initState

/-- State after a sequence of `open` calls from the initial state. -/
def applyOpens (ds : List WindowDesc) : WMState :=
  applyOps (ds.map Op.opn)

/-- Number of records with `isFocused = true`. -/
def countFocused (s : WMState) : Nat :=
  (s.windows.filter (fun w => w.isFocused)).length

/-! ## Chat relay endpoint (`POST /api/chat`, src/unnamed/part_002) -/

/-- A message role as accepted by the endpoint (`MessageInput`). -/
inductive Role where
  | user
  | assistant
deriving DecidableEq, Repr

/-- One inbound chat message (`interface MessageInput`). -/
structure MessageInput where
  role : Role
  content : String
deriving DecidableEq, Repr

/-- The `messages` field of the parsed request body.  The handler checks
`!messages || !Array.isArray(messages)`: a missing/falsy field and a truthy
non-array value take the same rejection branch, so both are modelled and kept
distinct from a genuine array. -/
inductive MessagesField where
  | missing
  | notArray
  | arr (ms : List MessageInput)
deriving DecidableEq, Repr

/-- The fixed instruction preamble (`SYSTEM_PROMPT`) prepended to every
upstream prompt.  The exact text is irrelevant to the claims; it is kept
abstract but fixed. -/
def SYSTEM_PROMPT : String :=
  "You are a helpful personal assistant designed to help with general research, questions, and tasks."

/-- Label used when rebuilding the transcript:
`m.role === 'user' ? 'User' : 'Assistant'`. -/
def roleLabel : Role → String
  | .user => "User"
  | .assistant => "Assistant"

/-- Embedding of
`messages.filter(m => m.role === 'user').pop()`: the last message whose
role is `user`. -/
def lastUserMessage (ms : List MessageInput) : Option MessageInput :=
  (ms.filter (fun m => m.role == Role.user)).getLast?

/-- Embedding of `Array.prototype.join('\n\n')`: elements separated by one
blank line, empty string for the empty array. -/
def joinBlankLines : List String → String
  | [] => ""
  | [a] => a
  | a :: b :: rest => a ++ "\n\n" ++ joinBlankLines (b :: rest)

/-- Embedding of the `conversationContext` construction: all messages except
the last, rendered `Role: content` and joined with blank lines. -/
def conversationContext (ms : List MessageInput) : String :=
  joinBlankLines (ms.dropLast.map (fun m => roleLabel m.role ++ ": " ++ m.content))

/-- Embedding of the `fullPrompt` construction, including the truthiness
test on `conversationContext` (empty string is falsy in JS). -/
def fullPrompt (ms : List MessageInput) (lastUser : MessageInput) : String :=
  let ctx := conversationContext ms
  if ctx = "" then
    SYSTEM_PROMPT ++ "\n\nUser: " ++ lastUser.content
  else
    SYSTEM_PROMPT ++ "\n\nPrevious conversation:\n" ++ ctx
      ++ "\n\nUser: " ++ lastUser.content

/-- The control-flow outcome of the `POST` handler before any upstream
events arrive: either an immediate JSON error response (no stream is ever
constructed on this path), or a streaming response that opens the upstream
`query` with the given prompt and `maxTurns` bound. -/
inductive ChatResponse where
  | jsonError (status : Nat) (error : String)
  | streamResponse (prompt : String) (maxTurns : Nat)
deriving DecidableEq, Repr

/-- Embedding of the validation and prompt-building portion of `POST`
(part_002 lines 38-121): reject a missing or non-array `messages`, reject
an array with no user message, otherwise open the stream with the rebuilt
prompt and `maxTurns: 10`. -/
def chatPOST (body : MessagesField) : ChatResponse :=
  match body with
  | .missing => .jsonError 400 "Messages array is required"
  | .notArray => .jsonError 400 "Messages array is required"
  | .arr ms =>
    match lastUserMessage ms with
    | none => .jsonError 400 "No user message found"
    | some lastUser => .streamResponse (fullPrompt ms lastUser) 10

/-- One frame written to the outbound SSE stream.  Each constructor stands
for one `data: {...}` line produced by the handler; `doneSentinel` is the
literal terminating line `data: [DONE]`. -/
inductive Frame where
  | textDelta (text : String)
  | toolStart (tool : String)
  | toolProgress (tool : String) (elapsed : Nat)
  | done
  | errorFrame (message : String)
  | doneSentinel
deriving DecidableEq, Repr

/-- A content block of an upstream assistant message (only `tool_use`
blocks produce frames). -/
inductive ContentBlock where
  | toolUse (name : String)
  | otherBlock
deriving DecidableEq, Repr

/-- One event yielded by the upstream `query(...)` async iterator, as far
as the handler inspects it. -/
inductive AgentMessage where
  | streamTextDelta (text : String)
  | streamOther
  | assistantMsg (content : List ContentBlock)
  | toolProgress (tool : String) (elapsed : Nat)
  | resultSuccess
  | resultFailure (subtype : String)
  | otherMessage
deriving DecidableEq, Repr

/-- Frames enqueued by one iteration of the `for await` loop (part_002
lines 122-203). -/
def framesOfMessage : AgentMessage → List Frame
  | .streamTextDelta t => [.textDelta t]
  | .streamOther => []
  | .assistantMsg blocks =>
      blocks.filterMap (fun b =>
        match b with
        | .toolUse n => some (.toolStart n)
        | .otherBlock => none)
  | .toolProgress t e => [.toolProgress t e]
  | .resultSuccess => [.done]
  | .resultFailure _ => [.errorFrame "Query did not complete successfully"]
  | .otherMessage => []

/-- How one request's upstream iteration ends: either the iterator is
exhausted normally after yielding `msgs`, or an exception is thrown after
the handler has consumed `msgs`. -/
inductive UpstreamRun where
  | completes (msgs : List AgentMessage)
  | throwsAfter (msgs : List AgentMessage)
deriving DecidableEq, Repr

/-- Embedding of the `start(controller)` body (part_002 lines 95-222): on
normal loop exit the literal sentinel is enqueued and the stream closed; on
an exception the catch block enqueues an error frame and closes without the
sentinel. -/
def streamFrames : UpstreamRun → List Frame
  | .completes msgs => msgs.flatMap framesOfMessage ++ [.doneSentinel]
  | .throwsAfter msgs =>
      msgs.flatMap framesOfMessage ++ [.errorFrame "Stream error occurred"]

/-! ## Folder view double-click classifier (FolderView.tsx) -/

/-- The mutable refs and selection state of one `FolderView` instance,
plus event logs: `selects` records each single- or double-click selection
action, `opens` records each `onOpen` invocation.  `timer` holds the armed
`setTimeout` as (deadline, the item captured by the callback). -/
structure FVState where
  lastClickedId : Option String
  clickCount : Nat
  timer : Option (Nat × String)
  selects : List String
  opens : List String
deriving DecidableEq, Repr

/-- Fresh folder-view state. -/
def initFV : FVState :=
  { lastClickedId := none, clickCount := 0, timer := none,
    selects := [], opens := [] }

/-- Runs the armed `setTimeout` callback (FolderView.tsx lines 64-79): if
the click counter is still 1, record a single-click selection of the
captured item; in all cases reset the counter and discharge the timer. -/
def fireTimer (s : FVState) : FVState :=
  match s.timer with
  | none => s
  | some (_, itemId) =>
    if s.clickCount == 1 then
      { s with timer := none, clickCount := 0,
               selects := s.selects ++ [itemId] }
    else
      { s with timer := none, clickCount := 0 }

/-- Embedding of `handleItemClick` (lines 47-98) for a click on `itemId`
at time `t`.  A timer whose deadline has passed strictly before the click
fires first (the event loop delivers the expired timeout callback before a
later click).  Then: reset the counter and cancel the timer when the id
differs from the last-clicked id; increment the counter; on 1 arm a
250-unit timer capturing this item; on 2 cancel the timer, reset, select
and invoke `onOpen`. -/
def handleItemClick (t : Nat) (itemId : String) (s0 : FVState) : FVState :=
  let s1 :=
    match s0.timer with
    | some (deadline, _) => if deadline < t then fireTimer s0 else s0
    | none => s0
  let s2 :=
    if s1.lastClickedId ≠ some itemId then
      { s1 with clickCount := 0, timer := none }
    else s1
  let s3 := { s2 with lastClickedId := some itemId,
                      clickCount := s2.clickCount + 1 }
  if s3.clickCount == 1 then
    { s3 with timer := some (t + 250, itemId) }
  else if s3.clickCount == 2 then
    { s3 with timer := none, clickCount := 0,
              selects := s3.selects ++ [itemId],
              opens := s3.opens ++ [itemId] }
  else
    s3

/-- Runs a time-ordered list of `(time, itemId)` clicks from the fresh
state, then lets any still-pending timer fire. -/
def runClicks (clicks : List (Nat × String)) : FVState :=
  fireTimer (clicks.foldl (fun s c => handleItemClick c.1 c.2 s) initFV)

/-! ## Reachability and invariants of the window manager -/

/-- The ids of the records in the window set, in order. -/
def windowIds (s : WMState) : List String :=
  s.windows.map (fun w => w.id)

/-- Ids are pairwise distinct within the window set. -/
def IdsNodup (s : WMState) : Prop :=
  (windowIds s).Nodup

/-- No record is simultaneously minimized and focused. -/
def MutexFree (s : WMState) : Prop :=
  ∀ w ∈ s.windows, w.isMinimized = false ∨ w.isFocused = false

/-- A provider state reachable from the initial state by some sequence of
window-manager operations. -/
def Reachable (s : WMState) : Prop :=
  ∃ ops : List Op, applyOps ops = s

/-- States reachable by operation sequences in which `focus` is only ever
applied to ids whose record (if any) is not minimized, and `open` is only
ever called with descriptors whose `isMinimized` flag is false — the
discipline the repository's own callers follow (the taskbar dispatches
`restore`, not `focus`, to minimized windows, and every opener constructs
visible windows). -/
inductive SafeReach : WMState → Prop
  | init : SafeReach initState
  | opn (d : WindowDesc) {s : WMState} : SafeReach s →
      d.isMinimized = false → SafeReach (openWindow d s)
  | close (id : String) {s : WMState} : SafeReach s →
      SafeReach (closeWindow id s)
  | minimize (id : String) {s : WMState} : SafeReach s →
      SafeReach (minimizeWindow id s)
  | maximize (id : String) {s : WMState} : SafeReach s →
      SafeReach (maximizeWindow id s)
  | restore (id : String) {s : WMState} : SafeReach s →
      SafeReach (restoreWindow id s)
  | focus (id : String) {s : WMState} : SafeReach s →
      (∀ w ∈ s.windows, w.id = id → w.isMinimized = false) →
      SafeReach (focusWindow id s)
  | move (id : String) (x y : Int) {s : WMState} : SafeReach s →
      SafeReach (updateWindowPosition id x y s)
  | resize (id : String) (width height : Int) {s : WMState} : SafeReach s →
      SafeReach (updateWindowSize id width height s)

/-- A sample fresh-window descriptor used for concrete witness states. -/
def descA : WindowDesc :=
  { id := "a", title := "Chat", icon := "chat", x := 0, y := 0,
    width := 400, height := 300, minWidth := 100, minHeight := 100,
    isMinimized := false, isMaximized := false, content := 0 }

/-- A second sample descriptor with a different id. -/
def descB : WindowDesc :=
  { id := "b", title := "Notes", icon := "note", x := 40, y := 40,
    width := 500, height := 350, minWidth := 120, minHeight := 90,
    isMinimized := false, isMaximized := false, content := 1 }

/-- A descriptor that re-uses id `a` with different geometry and payload,
used to exercise re-opening an existing id. -/
def descA2 : WindowDesc :=
  { id := "a", title := "Chat again", icon := "chat2", x := 7, y := 9,
    width := 640, height := 480, minWidth := 200, minHeight := 150,
    isMinimized := false, isMaximized := true, content := 5 }

/-- A descriptor whose `isMinimized` flag is already true. -/
def descMin : WindowDesc :=
  { id := "m", title := "Hidden", icon := "ghost", x := 0, y := 0,
    width := 300, height := 200, minWidth := 50, minHeight := 50,
    isMinimized := true, isMaximized := false, content := 2 }

/-! ## Helper lemmas -/

/-- The rendered transcript line of a message is never the empty string
(it always starts with `User: ` or `Assistant: `). -/
lemma transcriptLine_ne_empty (m : MessageInput) :
    roleLabel m.role ++ ": " ++ m.content ≠ "" := by
  intro h
  have hlen := congrArg String.length h
  cases hr : m.role <;>
    simp [roleLabel, hr, String.length_append] at hlen <;>
    exact absurd hlen.1 (by decide)

/-- Joining at least one rendered transcript line never yields the empty
string. -/
lemma joinBlankLines_transcript_ne_empty (l : List MessageInput) (hl : l ≠ []) :
    joinBlankLines (l.map (fun m => roleLabel m.role ++ ": " ++ m.content)) ≠ "" := by
  match l with
  | [] => exact absurd rfl hl
  | [m] =>
    simpa [joinBlankLines] using transcriptLine_ne_empty m
  | m :: m2 :: rest =>
    intro h
    have hlen := congrArg String.length h
    cases hr : m.role <;>
      simp [joinBlankLines, roleLabel, hr, String.length_append] at hlen <;>
      exact absurd hlen.1.1.1 (by decide)

end SentryOS

namespace SentryOS

/-! ## Claim theorems: chat relay endpoint -/

/-- C5. A body with a missing or non-array `messages` is answered with
status 400 and `{error: "Messages array is required"}`; an array with no
user-role message is answered with status 400 and
`{error: "No user message found"}`; both outcomes are immediate JSON error
responses, never streaming responses. -/
theorem chat_validation_errors :
    chatPOST MessagesField.missing
        = ChatResponse.jsonError 400 "Messages array is required" ∧
    chatPOST MessagesField.notArray
        = ChatResponse.jsonError 400 "Messages array is required" ∧
    (∀ ms : List MessageInput, (∀ m ∈ ms, m.role ≠ Role.user) →
      chatPOST (MessagesField.arr ms)
        = ChatResponse.jsonError 400 "No user message found") ∧
    (∀ b : MessagesField, ∀ status e, chatPOST b = ChatResponse.jsonError status e →
      ∀ p n, chatPOST b ≠ ChatResponse.streamResponse p n) := by
  refine ⟨rfl, rfl, ?_, ?_⟩
  · intro ms hms
    have hfilter : ms.filter (fun m => m.role == Role.user) = [] := by
      refine List.filter_eq_nil_iff.mpr ?_
      intro m hm
      simpa using hms m hm
    simp [chatPOST, lastUserMessage, hfilter]
  · intro b status e he p n hstream
    rw [he] at hstream
    exact ChatResponse.noConfusion hstream

/-- Witness for C5 at concrete bodies. -/
theorem chat_validation_errors_witness :
    chatPOST (MessagesField.arr [⟨Role.assistant, "hi"⟩])
        = ChatResponse.jsonError 400 "No user message found" :=
  chat_validation_errors.2.2.1 [⟨Role.assistant, "hi"⟩] (by decide)

/-- C2 counterexample. If an exception is thrown while consuming the
upstream event sequence before any event is handled, the delivered stream
is a single error frame and does not end with the literal `data: [DONE]`
sentinel: the catch block closes the stream without enqueueing it. -/
theorem chat_sentinel_counterexample :
    streamFrames (UpstreamRun.throwsAfter [])
        = [Frame.errorFrame "Stream error occurred"] ∧
    (streamFrames (UpstreamRun.throwsAfter [])).getLast?
        ≠ some Frame.doneSentinel := by
  constructor
  · rfl
  · intro h
    simp [streamFrames] at h

/-- C2 amended. When the upstream iteration completes without an exception
(whether the runtime reported success or a non-success result), the last
frame is the literal sentinel, and if the final upstream event is a
successful result, the final two frames are the `done` event followed by
the sentinel; when an exception is thrown while consuming the upstream
sequence, the last frame is the error frame and the sentinel is never
sent. -/
theorem chat_sentinel_amended :
    (∀ msgs : List AgentMessage,
      (streamFrames (UpstreamRun.completes msgs)).getLast?
        = some Frame.doneSentinel) ∧
    (∀ msgs : List AgentMessage,
      streamFrames (UpstreamRun.completes (msgs ++ [AgentMessage.resultSuccess]))
        = msgs.flatMap framesOfMessage ++ [Frame.done, Frame.doneSentinel]) ∧
    (∀ msgs : List AgentMessage,
      (streamFrames (UpstreamRun.throwsAfter msgs)).getLast?
        = some (Frame.errorFrame "Stream error occurred")) := by
  refine ⟨?_, ?_, ?_⟩
  · intro msgs
    simp [streamFrames]
  · intro msgs
    simp [streamFrames, framesOfMessage]
  · intro msgs
    simp [streamFrames]

/-- C9. For every valid body (an array whose last user-role message is
`lastUser`), the handler opens the stream with `maxTurns` bounded by 10 and
a prompt equal to the fixed preamble, then (when any earlier messages
exist) the transcript of all messages except the last joined by blank
lines under a `Previous conversation:` header, then the final user
message; and the message so appended really has role `user`. -/
theorem chat_stream_prompt (ms : List MessageInput) (lastUser : MessageInput)
    (h : lastUserMessage ms = some lastUser) :
    chatPOST (MessagesField.arr ms)
        = ChatResponse.streamResponse (fullPrompt ms lastUser) 10 ∧
    (ms.dropLast = [] →
      fullPrompt ms lastUser = SYSTEM_PROMPT ++ "\n\nUser: " ++ lastUser.content) ∧
    (ms.dropLast ≠ [] →
      fullPrompt ms lastUser =
        SYSTEM_PROMPT ++ "\n\nPrevious conversation:\n"
          ++ joinBlankLines
              (ms.dropLast.map (fun m => roleLabel m.role ++ ": " ++ m.content))
          ++ "\n\nUser: " ++ lastUser.content) ∧
    lastUser.role = Role.user := by
  refine ⟨?_, ?_, ?_, ?_⟩
  · simp [chatPOST, h]
  · intro hdl
    simp [fullPrompt, conversationContext, hdl, joinBlankLines]
  · intro hdl
    have hne := joinBlankLines_transcript_ne_empty ms.dropLast hdl
    simp only [fullPrompt, conversationContext]
    rw [if_neg hne]
  · have hmem : lastUser ∈ ms.filter (fun m => m.role == Role.user) := by
      have hopt : lastUser ∈ (ms.filter (fun m => m.role == Role.user)).getLast? :=
        Option.mem_def.mpr h
      obtain ⟨hne, heq⟩ := List.mem_getLast?_eq_getLast hopt
      exact heq ▸ List.getLast_mem hne
    simpa using (List.mem_filter.mp hmem).2

/-- Witness for C9 at a concrete two-message conversation. -/
theorem chat_stream_prompt_witness :
    chatPOST (MessagesField.arr [⟨Role.user, "hi"⟩, ⟨Role.assistant, "hello"⟩,
        ⟨Role.user, "thanks"⟩])
      = ChatResponse.streamResponse
          (fullPrompt [⟨Role.user, "hi"⟩, ⟨Role.assistant, "hello"⟩,
            ⟨Role.user, "thanks"⟩] ⟨Role.user, "thanks"⟩) 10 ∧
    MessageInput.role ⟨Role.user, "thanks"⟩ = Role.user :=
  ⟨(chat_stream_prompt _ _ (by decide)).1, (chat_stream_prompt
      [⟨Role.user, "hi"⟩, ⟨Role.assistant, "hello"⟩, ⟨Role.user, "thanks"⟩]
      ⟨Role.user, "thanks"⟩ (by decide)).2.2.2⟩

/-! ## Claim theorems: folder view double-click classification -/

/-- C7. Two clicks on the same item within 250 time-units invoke `onOpen`
exactly once (and perform one selection); two clicks on the same item
separated by more than 250 units perform two independent single-click
selections and no `onOpen`; a click on item A followed within 250 units by
a click on a different item B invokes `onOpen` for neither. -/
theorem folder_double_click_classification :
    (∀ (a : String) (t1 t2 : Nat), t1 ≤ t2 → t2 ≤ t1 + 250 →
      (runClicks [(t1, a), (t2, a)]).opens = [a] ∧
      (runClicks [(t1, a), (t2, a)]).selects = [a]) ∧
    (∀ (a : String) (t1 t2 : Nat), t1 + 250 < t2 →
      (runClicks [(t1, a), (t2, a)]).opens = [] ∧
      (runClicks [(t1, a), (t2, a)]).selects = [a, a]) ∧
    (∀ (a b : String) (t1 t2 : Nat), a ≠ b → t1 ≤ t2 → t2 ≤ t1 + 250 →
      (runClicks [(t1, a), (t2, b)]).opens = [] ∧
      (runClicks [(t1, a), (t2, b)]).opens.count a = 0 ∧
      (runClicks [(t1, a), (t2, b)]).opens.count b = 0) := by
  refine ⟨?_, ?_, ?_⟩
  · intro a t1 t2 h12 hin
    have hnlt : ¬ t1 + 250 < t2 := by omega
    simp [runClicks, handleItemClick, fireTimer, initFV, hnlt]
  · intro a t1 t2 hout
    simp [runClicks, handleItemClick, fireTimer, initFV, hout]
  · intro a b t1 t2 hab h12 hin
    have hnlt : ¬ t1 + 250 < t2 := by omega
    simp [runClicks, handleItemClick, fireTimer, initFV, hnlt, hab]

/-- Witness for C7 at concrete click timings. -/
theorem folder_double_click_classification_witness :
    (runClicks [(0, "x"), (100, "x")]).opens = ["x"] ∧
    (runClicks [(0, "x"), (400, "x")]).opens = [] ∧
    (runClicks [(0, "x"), (400, "x")]).selects = ["x", "x"] ∧
    (runClicks [(0, "x"), (100, "y")]).opens = [] :=
  ⟨(folder_double_click_classification.1 "x" 0 100 (by decide) (by decide)).1,
   (folder_double_click_classification.2.1 "x" 0 400 (by decide)).1,
   (folder_double_click_classification.2.1 "x" 0 400 (by decide)).2,
   (folder_double_click_classification.2.2 "x" "y" 0 100 (by decide)
      (by decide) (by decide)).1⟩

/-! ## Claim theorems: window manager -/

/-- C8. Re-opening an existing minimized id un-minimizes it, focuses it,
restacks it to the next z-order value, unfocuses every other record, and
appends nothing: the resulting set is a pointwise rewrite of the old one
with the same length. -/
theorem wm_open_minimized_restores (d : WindowDesc) (s : WMState) (w0 : WindowState)
    (hfind : s.windows.find? (fun w => w.id == d.id) = some w0)
    (hmin : w0.isMinimized = true) :
    (openWindow d s).windows =
      s.windows.map (fun w =>
        if w.id == d.id then
          { w with isMinimized := false, isFocused := true,
                   zIndex := s.topZIndex + 1 }
        else { w with isFocused := false }) ∧
    (openWindow d s).windows.length = s.windows.length ∧
    (openWindow d s).topZIndex = s.topZIndex + 1 ∧
    ∀ w1 ∈ (openWindow d s).windows,
      (w1.id = d.id →
        w1.isMinimized = false ∧ w1.isFocused = true ∧
        w1.zIndex = s.topZIndex + 1) ∧
      (w1.id ≠ d.id → w1.isFocused = false) := by
  have hw : (openWindow d s).windows =
      s.windows.map (fun w =>
        if w.id == d.id then
          { w with isMinimized := false, isFocused := true,
                   zIndex := s.topZIndex + 1 }
        else { w with isFocused := false }) := by
    simp [openWindow, hfind, hmin]
  refine ⟨hw, by rw [hw, List.length_map], rfl, ?_⟩
  intro w1 hw1
  rw [hw] at hw1
  rcases List.mem_map.mp hw1 with ⟨v, hv, rfl⟩
  by_cases hvd : v.id = d.id
  · constructor
    · intro _
      simp [hvd]
    · intro hne
      exact absurd (by simp [hvd]) hne
  · constructor
    · intro heq
      rw [if_neg (by simpa using hvd)] at heq
      exact absurd heq hvd
    · intro _
      simp [hvd]

/-- Witness for C8: re-opening id `a` after it was minimized. -/
theorem wm_open_minimized_restores_witness :
    (openWindow descA2 (minimizeWindow "a" (openWindow descA initState))).windows.length
      = (minimizeWindow "a" (openWindow descA initState)).windows.length :=
  (wm_open_minimized_restores descA2 (minimizeWindow "a" (openWindow descA initState))
    { (mkWindow descA 101) with isMinimized := true, isFocused := false }
    (by decide) (by decide)).2.1

/-- C10. Re-opening an existing non-minimized id only rewrites `isFocused`
and `zIndex`: the resulting set is a map over the old one that never reads
the new descriptor's geometry, title, icon, flags or content, and every
resulting record retains all other fields from a record of the old set. -/
theorem wm_open_existing_retains_fields (d : WindowDesc) (s : WMState) (w0 : WindowState)
    (hfind : s.windows.find? (fun w => w.id == d.id) = some w0)
    (hmin : w0.isMinimized = false) :
    (openWindow d s).windows =
      s.windows.map (fun w =>
        if w.id == d.id then
          { w with isFocused := true, zIndex := s.topZIndex + 1 }
        else { w with isFocused := false }) ∧
    (openWindow d s).windows.length = s.windows.length ∧
    ∀ w1 ∈ (openWindow d s).windows, ∃ w ∈ s.windows,
      w1.id = w.id ∧ w1.title = w.title ∧ w1.icon = w.icon ∧
      w1.x = w.x ∧ w1.y = w.y ∧ w1.width = w.width ∧ w1.height = w.height ∧
      w1.minWidth = w.minWidth ∧ w1.minHeight = w.minHeight ∧
      w1.isMinimized = w.isMinimized ∧ w1.isMaximized = w.isMaximized ∧
      w1.content = w.content := by
  have hw : (openWindow d s).windows =
      s.windows.map (fun w =>
        if w.id == d.id then
          { w with isFocused := true, zIndex := s.topZIndex + 1 }
        else { w with isFocused := false }) := by
    simp [openWindow, hfind, hmin]
  refine ⟨hw, by rw [hw, List.length_map], ?_⟩
  intro w1 hw1
  rw [hw] at hw1
  rcases List.mem_map.mp hw1 with ⟨v, hv, rfl⟩
  refine ⟨v, hv, ?_⟩
  by_cases hvd : v.id = d.id <;> simp [hvd]

/-- Witness for C10: re-opening id `a` with different geometry, title and
content retains the original record's fields. -/
theorem wm_open_existing_retains_fields_witness :
    (openWindow descA2 (openWindow descA initState)).windows.length
      = (openWindow descA initState).windows.length :=
  (wm_open_existing_retains_fields descA2 (openWindow descA initState)
    (mkWindow descA 101) (by decide) (by decide)).2.1

/-- C3 counterexample. `focus` on a non-existent id is not a no-op: on a
state holding one focused window `a`, `focus("ghost")` rewrites every
record's `isFocused` to false, so the window set changes. -/
theorem wm_absent_id_counterexample :
    (focusWindow "ghost" (openWindow descA initState)).windows
      ≠ (openWindow descA initState).windows := by
  decide

/-- C3 amended. With an id absent from the window set: `close`,
`minimize`, `maximize`, `move` and `resize` leave the state completely
unchanged, but `focus` and `restore` rewrite `isFocused` to false on every
record (leaving all other fields unchanged) and still consume a z-order
value. -/
theorem wm_absent_id_effects (s : WMState) (id : String)
    (habs : ∀ w ∈ s.windows, w.id ≠ id) :
    closeWindow id s = s ∧
    minimizeWindow id s = s ∧
    maximizeWindow id s = s ∧
    (∀ x y : Int, updateWindowPosition id x y s = s) ∧
    (∀ width height : Int, updateWindowSize id width height s = s) ∧
    (focusWindow id s).windows
      = s.windows.map (fun w => { w with isFocused := false }) ∧
    (focusWindow id s).topZIndex = s.topZIndex + 1 ∧
    (restoreWindow id s).windows
      = s.windows.map (fun w => { w with isFocused := false }) ∧
    (restoreWindow id s).topZIndex = s.topZIndex + 1 := by
  have hfilter : s.windows.filter (fun w => !(w.id == id)) = s.windows := by
    refine List.filter_eq_self.mpr ?_
    intro w hw
    simp [habs w hw]
  have hmapid : ∀ (f : WindowState → WindowState),
      (∀ w ∈ s.windows, f w = w) → s.windows.map f = s.windows := by
    intro f hf
    calc s.windows.map f = s.windows.map (fun w => w) :=
          List.map_congr_left fun w hw => hf w hw
      _ = s.windows := List.map_id s.windows
  refine ⟨?_, ?_, ?_, ?_, ?_, ?_, rfl, ?_, rfl⟩
  · show { s with windows := s.windows.filter (fun w => !(w.id == id)) } = s
    rw [hfilter]
  · show { s with windows := _ } = s
    rw [hmapid _ fun w hw => by simp [habs w hw]]
  · show { s with windows := _ } = s
    rw [hmapid _ fun w hw => by simp [habs w hw]]
  · intro x y
    show { s with windows := _ } = s
    rw [hmapid _ fun w hw => by simp [habs w hw]]
  · intro width height
    show { s with windows := _ } = s
    rw [hmapid _ fun w hw => by simp [habs w hw]]
  · simp only [focusWindow]
    exact List.map_congr_left fun w hw => by simp [habs w hw]
  · simp only [restoreWindow]
    exact List.map_congr_left fun w hw => by simp [habs w hw]

/-- Witness for C3 amended, on a one-window state and the absent id
`ghost`. -/
theorem wm_absent_id_effects_witness :
    closeWindow "ghost" (openWindow descA initState) = openWindow descA initState ∧
    (focusWindow "ghost" (openWindow descA initState)).windows
      = (openWindow descA initState).windows.map
          (fun w => { w with isFocused := false }) :=
  ⟨(wm_absent_id_effects (openWindow descA initState) "ghost" (by decide)).1,
   (wm_absent_id_effects (openWindow descA initState) "ghost" (by decide)).2.2.2.2.2.1⟩

/-- Peeling the last operation off an operation sequence. -/
lemma applyOps_concat (ops : List Op) (o : Op) :
    applyOps (ops ++ [o]) = stepOp (applyOps ops) o := by
  simp [applyOps, List.foldl_append]

/-- Peeling the last `open` call off an open-call sequence. -/
lemma applyOpens_concat (ds : List WindowDesc) (d : WindowDesc) :
    applyOpens (ds ++ [d]) = openWindow d (applyOpens ds) := by
  simp [applyOpens, applyOps, List.foldl_append, stepOp]

/-- Unfocusing every record leaves nothing focused. -/
lemma filter_focused_map_unfocus (l : List WindowState) :
    (l.map (fun w => { w with isFocused := false })).filter
      (fun w => w.isFocused) = [] := by
  induction l with
  | nil => rfl
  | cons a l ih => simp [List.filter_cons, ih]

/-- After a sequence of `open` calls with pairwise distinct ids, the
window ids are exactly the descriptor ids in order, and the number of
focused records is 0 for the empty sequence and 1 otherwise. -/
lemma applyOpens_ids_and_focus (ds : List WindowDesc)
    (hnd : (ds.map (fun d => d.id)).Nodup) :
    windowIds (applyOpens ds) = ds.map (fun d => d.id) ∧
    countFocused (applyOpens ds) = if ds = [] then 0 else 1 := by
  induction ds using List.reverseRecOn with
  | nil =>
    constructor <;> rfl
  | append_singleton ds d ih =>
    have hnd2 : (ds.map (fun d => d.id)).Nodup ∧
        d.id ∉ ds.map (fun d => d.id) := by
      rw [List.map_append] at hnd
      have h := List.nodup_append.mp hnd
      exact ⟨h.1, fun hmem => h.2.2 hmem (by simp)⟩
    obtain ⟨hids, _⟩ := ih hnd2.1
    have hfresh : d.id ∉ windowIds (applyOpens ds) := by
      rw [hids]; exact hnd2.2
    have hfind : (applyOpens ds).windows.find? (fun w => w.id == d.id) = none := by
      rw [List.find?_eq_none]
      intro w hw hbeq
      have hwid : w.id = d.id := by simpa using hbeq
      exact hfresh (hwid ▸ List.mem_map_of_mem (fun w => w.id) hw)
    have hopen : (openWindow d (applyOpens ds)).windows =
        (applyOpens ds).windows.map (fun w => { w with isFocused := false })
          ++ [mkWindow d ((applyOpens ds).topZIndex + 1)] := by
      simp [openWindow, hfind]
    rw [applyOpens_concat]
    constructor
    · have h1 : List.map (fun w => WindowState.id w)
          ((applyOpens ds).windows.map
            (fun w => ({ w with isFocused := false } : WindowState)))
          = List.map (fun w => w.id) (applyOpens ds).windows := by
        rw [List.map_map]
        exact List.map_congr_left fun v _ => rfl
      rw [windowIds] at hids
      rw [windowIds, hopen, List.map_append, h1, hids, List.map_append]
      rfl
    · rw [countFocused, hopen, List.filter_append, filter_focused_map_unfocus]
      simp [mkWindow]

/-- C1. For every sequence of `open` calls with pairwise distinct ids
starting from the empty window set, after every prefix of the sequence at
most one record is focused, and after every non-empty prefix (that is,
after each call) exactly one record has `isFocused = true`. -/
theorem wm_open_distinct_single_focus (ds : List WindowDesc)
    (hnd : (ds.map (fun d => d.id)).Nodup) :
    ∀ p q : List WindowDesc, ds = p ++ q →
      countFocused (applyOpens p) ≤ 1 ∧
      (p ≠ [] → countFocused (applyOpens p) = 1) := by
  intro p q hpq
  have hp : (p.map (fun d => d.id)).Nodup := by
    subst hpq
    rw [List.map_append] at hnd
    exact (List.nodup_append.mp hnd).1
  have hcount := (applyOpens_ids_and_focus p hp).2
  by_cases hpe : p = []
  · subst hpe
    rw [hcount]
    exact ⟨by simp, fun h => absurd rfl h⟩
  · rw [hcount, if_neg hpe]
    exact ⟨le_refl 1, fun _ => rfl⟩

/-- Witness for C1 on the two-call sequence `[descA, descB]` and its
prefix `[descA]`. -/
theorem wm_open_distinct_single_focus_witness :
    countFocused (applyOpens [descA]) ≤ 1 ∧
    ([descA] ≠ [] → countFocused (applyOpens [descA]) = 1) :=
  wm_open_distinct_single_focus [descA, descB] (by decide) [descA] [descB] rfl

/-- Every record produced by a map whose branches either assign the fresh
z-order value or keep the old one stays below the incremented counter. -/
lemma zle_of_mem_map {l : List WindowState} {top : Nat}
    (h : ∀ w ∈ l, w.zIndex ≤ top) {f : WindowState → WindowState}
    (hf : ∀ v, (f v).zIndex = top + 1 ∨ (f v).zIndex = v.zIndex) :
    ∀ w ∈ l.map f, w.zIndex ≤ top + 1 := by
  intro w hw
  rcases List.mem_map.mp hw with ⟨v, hv, rfl⟩
  have h2 := h v hv
  rcases hf v with h1 | h1 <;> omega

/-- Every window-manager operation preserves the bound
`zIndex ≤ topZIndex` on all records. -/
lemma zle_top_step (s : WMState) (o : Op)
    (h : ∀ w ∈ s.windows, w.zIndex ≤ s.topZIndex) :
    ∀ w ∈ (stepOp s o).windows, w.zIndex ≤ (stepOp s o).topZIndex := by
  cases o with
  | opn d =>
    intro w hw
    show w.zIndex ≤ s.topZIndex + 1
    cases hfind : s.windows.find? (fun w => w.id == d.id) with
    | none =>
      have hopen : (stepOp s (Op.opn d)).windows =
          s.windows.map (fun w => ({ w with isFocused := false } : WindowState))
            ++ [mkWindow d (s.topZIndex + 1)] := by
        simp [stepOp, openWindow, hfind]
      rw [hopen] at hw
      rcases List.mem_append.mp hw with hw1 | hw1
      · refine zle_of_mem_map h ?_ w hw1
        intro v
        exact Or.inr rfl
      · rw [List.mem_singleton.mp hw1]
        exact Nat.le_refl _
    | some ex =>
      by_cases hm : ex.isMinimized = true
      · have hopen : (stepOp s (Op.opn d)).windows =
            s.windows.map (fun w =>
              if w.id == d.id then
                { w with isMinimized := false, isFocused := true,
                         zIndex := s.topZIndex + 1 }
              else { w with isFocused := false }) := by
          simp [stepOp, openWindow, hfind, hm]
        rw [hopen] at hw
        refine zle_of_mem_map h ?_ w hw
        intro v
        split
        · exact Or.inl rfl
        · exact Or.inr rfl
      · have hopen : (stepOp s (Op.opn d)).windows =
            s.windows.map (fun w =>
              if w.id == d.id then
                { w with isFocused := true, zIndex := s.topZIndex + 1 }
              else { w with isFocused := false }) := by
          simp [stepOp, openWindow, hfind, hm]
        rw [hopen] at hw
        refine zle_of_mem_map h ?_ w hw
        intro v
        split
        · exact Or.inl rfl
        · exact Or.inr rfl
  | close id =>
    intro w hw
    simp only [stepOp, closeWindow] at hw ⊢
    exact h w (List.mem_of_mem_filter hw)
  | minimize id =>
    intro w hw
    simp only [stepOp, minimizeWindow] at hw ⊢
    rcases List.mem_map.mp hw with ⟨v, hv, rfl⟩
    have hz : v.zIndex ≤ s.topZIndex := h v hv
    split <;> exact hz
  | maximize id =>
    intro w hw
    simp only [stepOp, maximizeWindow] at hw ⊢
    rcases List.mem_map.mp hw with ⟨v, hv, rfl⟩
    have hz : v.zIndex ≤ s.topZIndex := h v hv
    split <;> exact hz
  | restore id =>
    intro w hw
    simp only [stepOp, restoreWindow] at hw ⊢
    refine zle_of_mem_map h ?_ w hw
    intro v
    split
    · exact Or.inl rfl
    · exact Or.inr rfl
  | focus id =>
    intro w hw
    simp only [stepOp, focusWindow] at hw ⊢
    refine zle_of_mem_map h ?_ w hw
    intro v
    split
    · exact Or.inl rfl
    · exact Or.inr rfl
  | move id x y =>
    intro w hw
    simp only [stepOp, updateWindowPosition] at hw ⊢
    rcases List.mem_map.mp hw with ⟨v, hv, rfl⟩
    have hz : v.zIndex ≤ s.topZIndex := h v hv
    split <;> exact hz
  | resize id width height =>
    intro w hw
    simp only [stepOp, updateWindowSize] at hw ⊢
    rcases List.mem_map.mp hw with ⟨v, hv, rfl⟩
    have hz : v.zIndex ≤ s.topZIndex := h v hv
    split <;> exact hz

/-- In every reachable state, every record's z-order value is at most the
stacking counter. -/
lemma reachable_zle_top (ops : List Op) :
    ∀ w ∈ (applyOps ops).windows, w.zIndex ≤ (applyOps ops).topZIndex := by
  induction ops using List.reverseRecOn with
  | nil => intro w hw; exact absurd hw (by simp [applyOps, initState])
  | append_singleton ops o ih =>
    rw [applyOps_concat]
    exact zle_top_step _ o ih

/-- C6. In every reachable state, immediately after `focus(id)` on an id
present in the window set, the record carrying that id exists and its
z-order value strictly exceeds the z-order value of every record with a
different id. -/
theorem wm_focus_strictly_topmost (s : WMState) (hs : Reachable s) (id : String)
    (hid : ∃ w ∈ s.windows, w.id = id) :
    (∃ w1 ∈ (focusWindow id s).windows, w1.id = id) ∧
    (∀ w1 ∈ (focusWindow id s).windows, w1.id = id →
      ∀ w2 ∈ (focusWindow id s).windows, w2.id ≠ id →
        w2.zIndex < w1.zIndex) := by
  obtain ⟨ops, rfl⟩ := hs
  have hinv := reachable_zle_top ops
  constructor
  · obtain ⟨w, hw, hwid⟩ := hid
    refine ⟨_, List.mem_map_of_mem _ hw, ?_⟩
    simp [hwid]
  · intro w1 hw1 h1 w2 hw2 h2
    simp only [focusWindow] at hw1 hw2
    rcases List.mem_map.mp hw1 with ⟨v1, hv1, rfl⟩
    rcases List.mem_map.mp hw2 with ⟨v2, hv2, rfl⟩
    by_cases c1 : v1.id = id
    · by_cases c2 : v2.id = id
      · have b2 : (v2.id == id) = true := by simpa using c2
        rw [b2, if_pos rfl] at h2
        exact absurd c2 h2
      · have b1 : (v1.id == id) = true := by simpa using c1
        have b2 : (v2.id == id) = false := by simpa using c2
        rw [b1, b2, if_pos rfl, if_neg Bool.false_ne_true]
        show v2.zIndex < (applyOps ops).topZIndex + 1
        exact Nat.lt_succ_of_le (hinv v2 hv2)
    · have b1 : (v1.id == id) = false := by simpa using c1
      rw [b1, if_neg Bool.false_ne_true] at h1
      exact absurd h1 c1

/-- Witness for C6 on the concrete state reached by opening `a` then `b`,
then focusing `a`. -/
theorem wm_focus_strictly_topmost_witness :
    (∃ w1 ∈ (focusWindow "a" (applyOps [Op.opn descA, Op.opn descB])).windows,
        w1.id = "a") ∧
    (∀ w1 ∈ (focusWindow "a" (applyOps [Op.opn descA, Op.opn descB])).windows,
        w1.id = "a" →
      ∀ w2 ∈ (focusWindow "a" (applyOps [Op.opn descA, Op.opn descB])).windows,
        w2.id ≠ "a" → w2.zIndex < w1.zIndex) :=
  wm_focus_strictly_topmost (applyOps [Op.opn descA, Op.opn descB])
    ⟨[Op.opn descA, Op.opn descB], rfl⟩ "a" (by decide)

/-- C4 counterexample. The minimized/focused exclusivity invariant fails
on reachable states: focusing a minimized window sets `isFocused = true`
without clearing `isMinimized`, and opening a fresh descriptor whose
`isMinimized` flag is true appends a record that is both minimized and
focused. -/
theorem wm_mutex_counterexample :
    (∃ w ∈ (applyOps [Op.opn descA, Op.minimize "a", Op.focus "a"]).windows,
        w.isMinimized = true ∧ w.isFocused = true) ∧
    (∃ w ∈ (applyOps [Op.opn descMin]).windows,
        w.isMinimized = true ∧ w.isFocused = true) := by
  decide

/-- Mapping an id-preserving function over the window list leaves the id
list unchanged. -/
lemma ids_of_map_id_preserving (l : List WindowState)
    (f : WindowState → WindowState) (hf : ∀ v, (f v).id = v.id) :
    (l.map f).map (fun w => w.id) = l.map (fun w => w.id) := by
  rw [List.map_map]
  exact List.map_congr_left fun v _ => hf v

/-- Distinct ids survive any id-preserving pointwise rewrite of the
window list. -/
lemma idsNodup_of_map (s : WMState) (f : WindowState → WindowState)
    (hf : ∀ v, (f v).id = v.id) (h : IdsNodup s) :
    ((s.windows.map f).map (fun w => w.id)).Nodup := by
  rw [ids_of_map_id_preserving s.windows f hf]
  exact h

/-- Every window-manager operation preserves distinctness of ids. -/
lemma idsNodup_step (s : WMState) (o : Op) (h : IdsNodup s) :
    IdsNodup (stepOp s o) := by
  cases o with
  | opn d =>
    cases hfind : s.windows.find? (fun w => w.id == d.id) with
    | none =>
      have hopen : (stepOp s (Op.opn d)).windows =
          s.windows.map (fun w => ({ w with isFocused := false } : WindowState))
            ++ [mkWindow d (s.topZIndex + 1)] := by
        simp [stepOp, openWindow, hfind]
      have hfresh : d.id ∉ s.windows.map (fun w => w.id) := by
        intro hmem
        rcases List.mem_map.mp hmem with ⟨v, hv, hvid⟩
        have := List.find?_eq_none.mp hfind v hv
        simp [hvid] at this
      show ((stepOp s (Op.opn d)).windows.map (fun w => w.id)).Nodup
      rw [hopen, List.map_append,
        ids_of_map_id_preserving s.windows
          (fun w => ({ w with isFocused := false } : WindowState))
          (fun v => rfl)]
      refine List.nodup_append.mpr ⟨h, List.nodup_singleton _, ?_⟩
      intro x hx hx2
      have : x = d.id := by simpa [mkWindow] using hx2
      exact hfresh (this ▸ hx)
    | some ex =>
      by_cases hm : ex.isMinimized = true
      · have hopen : (stepOp s (Op.opn d)).windows =
            s.windows.map (fun w =>
              if w.id == d.id then
                { w with isMinimized := false, isFocused := true,
                         zIndex := s.topZIndex + 1 }
              else { w with isFocused := false }) := by
          simp [stepOp, openWindow, hfind, hm]
        show ((stepOp s (Op.opn d)).windows.map (fun w => w.id)).Nodup
        rw [hopen]
        exact idsNodup_of_map s _ (fun v => by split <;> rfl) h
      · have hopen : (stepOp s (Op.opn d)).windows =
            s.windows.map (fun w =>
              if w.id == d.id then
                { w with isFocused := true, zIndex := s.topZIndex + 1 }
              else { w with isFocused := false }) := by
          simp [stepOp, openWindow, hfind, hm]
        show ((stepOp s (Op.opn d)).windows.map (fun w => w.id)).Nodup
        rw [hopen]
        exact idsNodup_of_map s _ (fun v => by split <;> rfl) h
  | close id =>
    show ((s.windows.filter (fun w => !(w.id == id))).map (fun w => w.id)).Nodup
    exact h.sublist ((List.filter_sublist s.windows).map (fun w => w.id))
  | minimize id =>
    exact idsNodup_of_map s _ (fun v => by split <;> rfl) h
  | maximize id =>
    exact idsNodup_of_map s _ (fun v => by split <;> rfl) h
  | restore id =>
    exact idsNodup_of_map s _ (fun v => by split <;> rfl) h
  | focus id =>
    exact idsNodup_of_map s _ (fun v => by split <;> rfl) h
  | move id x y =>
    exact idsNodup_of_map s _ (fun v => by split <;> rfl) h
  | resize id width height =>
    exact idsNodup_of_map s _ (fun v => by split <;> rfl) h

/-- Under distinct ids, `open` with a non-minimized descriptor preserves
the minimized/focused exclusivity invariant. -/
lemma mutexFree_openWindow (d : WindowDesc) (s : WMState)
    (hnd : IdsNodup s) (hdmin : d.isMinimized = false) :
    MutexFree (openWindow d s) := by
  intro w hw
  cases hfind : s.windows.find? (fun x => x.id == d.id) with
  | none =>
    have hopen : (openWindow d s).windows =
        s.windows.map (fun w => ({ w with isFocused := false } : WindowState))
          ++ [mkWindow d (s.topZIndex + 1)] := by
      simp [openWindow, hfind]
    rw [hopen] at hw
    rcases List.mem_append.mp hw with hw1 | hw1
    · rcases List.mem_map.mp hw1 with ⟨v, hv, rfl⟩
      exact Or.inr rfl
    · rw [List.mem_singleton.mp hw1]
      exact Or.inl hdmin
  | some ex =>
    have hex_mem : ex ∈ s.windows := List.mem_of_find?_eq_some hfind
    have hex_id : ex.id = d.id := by
      have := List.find?_some hfind
      simpa using this
    by_cases hexm : ex.isMinimized = true
    · have hopen : (openWindow d s).windows =
          s.windows.map (fun w =>
            if w.id == d.id then
              { w with isMinimized := false, isFocused := true,
                       zIndex := s.topZIndex + 1 }
            else { w with isFocused := false }) := by
        simp [openWindow, hfind, hexm]
      rw [hopen] at hw
      rcases List.mem_map.mp hw with ⟨v, hv, rfl⟩
      by_cases c : v.id = d.id
      · rw [if_pos (by simpa using c)]
        exact Or.inl rfl
      · rw [if_neg (by simpa using c)]
        exact Or.inr rfl
    · have hopen : (openWindow d s).windows =
          s.windows.map (fun w =>
            if w.id == d.id then
              { w with isFocused := true, zIndex := s.topZIndex + 1 }
            else { w with isFocused := false }) := by
        simp [openWindow, hfind, hexm]
      rw [hopen] at hw
      rcases List.mem_map.mp hw with ⟨v, hv, rfl⟩
      by_cases c : v.id = d.id
      · rw [if_pos (by simpa using c)]
        have hveq : v = ex :=
          List.inj_on_of_nodup_map hnd hv hex_mem (by rw [c, hex_id])
        refine Or.inl ?_
        show v.isMinimized = false
        rw [hveq]
        exact eq_false_of_ne_true hexm
      · rw [if_neg (by simpa using c)]
        exact Or.inr rfl

/-- `focus` on an id whose record (if any) is not minimized preserves the
exclusivity invariant. -/
lemma mutexFree_focusWindow (id : String) (s : WMState)
    (hguard : ∀ w ∈ s.windows, w.id = id → w.isMinimized = false) :
    MutexFree (focusWindow id s) := by
  intro w hw
  simp only [focusWindow] at hw
  rcases List.mem_map.mp hw with ⟨v, hv, rfl⟩
  by_cases c : v.id = id
  · rw [if_pos (by simpa using c)]
    exact Or.inl (hguard v hv c)
  · rw [if_neg (by simpa using c)]
    exact Or.inr rfl

/-- Every state reachable under the callers' discipline has pairwise
distinct ids and satisfies the minimized/focused exclusivity invariant. -/
lemma safeReach_nodup_mutex {s : WMState} (h : SafeReach s) :
    IdsNodup s ∧ MutexFree s := by
  induction h with
  | init =>
    refine ⟨List.nodup_nil, ?_⟩
    intro w hw
    exact absurd hw (List.not_mem_nil w)
  | opn d hs hdmin ih =>
    exact ⟨idsNodup_step _ (Op.opn d) ih.1,
      mutexFree_openWindow d _ ih.1 hdmin⟩
  | close id hs ih =>
    refine ⟨idsNodup_step _ (Op.close id) ih.1, ?_⟩
    intro w hw
    exact ih.2 w (List.mem_of_mem_filter hw)
  | minimize id hs ih =>
    refine ⟨idsNodup_step _ (Op.minimize id) ih.1, ?_⟩
    intro w hw
    simp only [minimizeWindow] at hw
    rcases List.mem_map.mp hw with ⟨v, hv, rfl⟩
    split
    · exact Or.inr rfl
    · exact ih.2 v hv
  | maximize id hs ih =>
    refine ⟨idsNodup_step _ (Op.maximize id) ih.1, ?_⟩
    intro w hw
    simp only [maximizeWindow] at hw
    rcases List.mem_map.mp hw with ⟨v, hv, rfl⟩
    rcases ih.2 v hv with hvm | hvm
    · split
      · exact Or.inl hvm
      · exact Or.inl hvm
    · split
      · exact Or.inr hvm
      · exact Or.inr hvm
  | restore id hs ih =>
    refine ⟨idsNodup_step _ (Op.restore id) ih.1, ?_⟩
    intro w hw
    simp only [restoreWindow] at hw
    rcases List.mem_map.mp hw with ⟨v, hv, rfl⟩
    split
    · exact Or.inl rfl
    · exact Or.inr rfl
  | focus id hs hguard ih =>
    exact ⟨idsNodup_step _ (Op.focus id) ih.1,
      mutexFree_focusWindow id _ hguard⟩
  | move id x y hs ih =>
    refine ⟨idsNodup_step _ (Op.move id x y) ih.1, ?_⟩
    intro w hw
    simp only [updateWindowPosition] at hw
    rcases List.mem_map.mp hw with ⟨v, hv, rfl⟩
    rcases ih.2 v hv with hvm | hvm
    · split
      · exact Or.inl hvm
      · exact Or.inl hvm
    · split
      · exact Or.inr hvm
      · exact Or.inr hvm
  | resize id width height hs ih =>
    refine ⟨idsNodup_step _ (Op.resize id width height) ih.1, ?_⟩
    intro w hw
    simp only [updateWindowSize] at hw
    rcases List.mem_map.mp hw with ⟨v, hv, rfl⟩
    rcases ih.2 v hv with hvm | hvm
    · split
      · exact Or.inl hvm
      · exact Or.inl hvm
    · split
      · exact Or.inr hvm
      · exact Or.inr hvm

/-- C4 amended. `minimize(id)` always leaves the target unfocused, and the
minimized/focused exclusivity invariant holds in every state reachable
when `focus` is never aimed at a minimized record and `open` descriptors
are not pre-minimized — the only two transitions that violate it (see the
counterexample). -/
theorem wm_minimize_unfocuses_and_safe_mutex :
    (∀ (s : WMState) (id : String), ∀ w ∈ (minimizeWindow id s).windows,
      w.id = id → w.isFocused = false) ∧
    (∀ s : WMState, SafeReach s → ∀ w ∈ s.windows,
      w.isMinimized = false ∨ w.isFocused = false) := by
  constructor
  · intro s id w hw hwid
    simp only [minimizeWindow] at hw
    rcases List.mem_map.mp hw with ⟨v, hv, rfl⟩
    by_cases c : v.id = id
    · rw [if_pos (by simpa using c)]
    · rw [if_neg (by simpa using c)] at hwid ⊢
      exact absurd hwid c
  · intro s hs
    exact (safeReach_nodup_mutex hs).2

/-- Witness for C4 amended: minimizing `a` leaves it unfocused, and the
safely-reached state open-`a`-then-focus-`a` satisfies the invariant. -/
theorem wm_minimize_unfocuses_and_safe_mutex_witness :
    (∀ w ∈ (minimizeWindow "a" (openWindow descA initState)).windows,
      w.id = "a" → w.isFocused = false) ∧
    (∀ w ∈ (focusWindow "a" (openWindow descA initState)).windows,
      w.isMinimized = false ∨ w.isFocused = false) :=
  ⟨fun w hw => wm_minimize_unfocuses_and_safe_mutex.1
      (openWindow descA initState) "a" w hw,
   wm_minimize_unfocuses_and_safe_mutex.2 _
     (SafeReach.focus "a" (SafeReach.opn descA SafeReach.init rfl) (by decide))⟩

end SentryOS
